import Mathlib

/-!
Shallow embedding of the timer-scheduling core of `blink_timer.pyw`.

Timestamps and durations are Python integers, modelled as `Int`.
The mutable `Timer` objects of the Python code are modelled by explicit
state passing: every mutating method returns the updated record, and the
in-place mutation of the timer list in `_reschedule_covered_timers` is
modelled by threading the already-processed prefix of the list through
the recursion.  The unbounded `while` loop of the overlap resolver is
modelled with explicit fuel returning `Option`: `none` means the fuel ran
out, so termination statements become `∃ fuel, … = some …`.
-/

namespace BlinkTimer

/-- `TimerConfig` from `config.py` as used by the core: `title`, `period_s`
and `duration_s` (display styling fields are irrelevant to scheduling). -/
structure TimerConfig where
  title : String
  period_s : Int
  duration_s : Int
deriving DecidableEq, Repr

/-- The `Timer` class: a config reference plus the mutable `next_time`. -/
structure Timer where
  config : TimerConfig
  next_time : Int
deriving DecidableEq, Repr

/-- `Timer.reset`: `self.next_time = timestamp + self.config.period_s`. -/
def Timer.reset (t : Timer) (ts : Int) : Timer :=
  { t with next_time := ts + t.config.period_s }

/-- `Timer.reschedule`: `self.next_time += self.config.period_s`. -/
def Timer.reschedule (t : Timer) : Timer :=
  { t with next_time := t.next_time + t.config.period_s }

/-- `Timer.get_next_time_finish`: `self.next_time + self.config.duration_s`. -/
def Timer.get_next_time_finish (t : Timer) : Int :=
  t.next_time + t.config.duration_s

/-- `Timer.__init__`: stores the config and calls `reset(timestamp)`. -/
def Timer.init (config : TimerConfig) (ts : Int) : Timer :=
  Timer.reset { config := config, next_time := 0 } ts

/-- The condition of the inner `while` loop of
`_reschedule_covered_timers` (lines 219-220):
`timer.get_next_time_finish() >= higher_prio_timer.next_time and
 timer.next_time <= higher_prio_timer.get_next_time_finish()`. -/
def overlap_cond (t h : Timer) : Bool :=
  decide (h.next_time ≤ t.get_next_time_finish) &&
  decide (t.next_time ≤ h.get_next_time_finish)

/-- The inner `while` loop of `_reschedule_covered_timers`: keep calling
`timer.reschedule()` while `overlap_cond timer h` holds.  `fuel` bounds the
number of iterations; `none` means the fuel was exhausted. -/
def resolveAgainst (h : Timer) : Nat → Timer → Option Timer
  | 0, t => if overlap_cond t h then none else some t
  | fuel + 1, t =>
    if overlap_cond t h then resolveAgainst h fuel t.reschedule else some t

/-- The middle `for` loop of `_reschedule_covered_timers`: run the `while`
loop against every higher-priority timer (`self._timers[:timer_idx]`,
in priority order, already updated in place). -/
def resolveOne (fuel : Nat) : Timer → List Timer → Option Timer
  | t, [] => some t
  | t, h :: hs =>
    match resolveAgainst h fuel t with
    | none => none
    | some t2 => resolveOne fuel t2 hs

/-- The outer `for` loop of `_reschedule_covered_timers`.  `done` is the
already-processed prefix of the timer list (its elements hold their
updated values, exactly as the in-place mutation leaves them). -/
def resolveAux (fuel : Nat) : List Timer → List Timer → Option (List Timer)
  | done, [] => some done
  | done, t :: rest =>
    match resolveOne fuel t done with
    | none => none
    | some t2 => resolveAux fuel (done ++ [t2]) rest

/-- `TimersThread._reschedule_covered_timers`, acting on the whole
priority-ordered timer list. -/
def reschedule_covered_timers (fuel : Nat) (timers : List Timer) :
    Option (List Timer) :=
  resolveAux fuel [] timers

/-- The sleep-detection threshold: the literal `10` at line 175,
named `SLEEP_THRESHOLD` by the spec. -/
def SLEEP_THRESHOLD : Int := 10

/-- Outcome of one `_check_timers` scan: no timer due, activate the timer
at an index, or sleep detected. -/
inductive ScanAction where
  | idle : ScanAction
  | activate : Nat → ScanAction
  | sleepReset : ScanAction
deriving DecidableEq, Repr

/-- The scan loop of `_check_timers`: walk the timers in priority order;
at the first timer with `diff = now - next_time > 0`, either activate it
(`diff < SLEEP_THRESHOLD`) or report a sleep, and stop (`break`). -/
def scan_from (now : Int) : Nat → List Timer → ScanAction
  | _, [] => ScanAction.idle
  | i, t :: rest =>
    let diff := now - t.next_time
    if 0 < diff then
      if diff < SLEEP_THRESHOLD then ScanAction.activate i
      else ScanAction.sleepReset
    else scan_from now (i + 1) rest

/-- The decision `_check_timers` takes at time `now`. -/
def check_action (now : Int) (timers : List Timer) : ScanAction :=
  scan_from now 0 timers

/-- Replace the element at an index (in-place mutation of one timer). -/
def modifyIdx : List Timer → Nat → (Timer → Timer) → List Timer
  | [], _, _ => []
  | t :: ts, 0, f => f t :: ts
  | t :: ts, n + 1, f => t :: modifyIdx ts n f

/-- The effect of `_check_timers` on the timer list: on activation the
overlay is shown (external), then the activated timer is rescheduled and
`_reschedule_covered_timers` runs (`_activate_timer`); on sleep detection
every timer is reset to `now`; otherwise nothing changes. -/
def check_timers (fuel : Nat) (now : Int) (timers : List Timer) :
    Option (List Timer) :=
  match check_action now timers with
  | ScanAction.idle => some timers
  | ScanAction.activate i =>
    reschedule_covered_timers fuel (modifyIdx timers i Timer.reschedule)
  | ScanAction.sleepReset => some (timers.map (fun t => t.reset now))

/-- The effect of a `RESET_TIMERS` message (lines 154-158): reset every
timer to `now`, then run `_reschedule_covered_timers`. -/
def reset_timers (fuel : Nat) (now : Int) (timers : List Timer) :
    Option (List Timer) :=
  reschedule_covered_timers fuel (timers.map (fun t => t.reset now))

/-- Python `%`-formatting restricted to `%s` holes: each `%s` in the
format string consumes the next argument; other characters are copied. -/
def pctFormatAux : List Char → List String → String
  | [], _ => ""
  | '%' :: 's' :: rest, a :: args => a ++ pctFormatAux rest args
  | c :: rest, args => String.singleton c ++ pctFormatAux rest args

/-- `fmt % args` for a format string whose only directives are `%s`. -/
def pctFormat (fmt : String) (args : List String) : String :=
  pctFormatAux fmt.data args

/-- Modelled from the spec: `seconds_to_hh_mm_ss` lives in `util.py`,
which is not under `src/`; the spec says only that a number of seconds is
rendered in `HH:MM:SS` form.  Hours, minutes and seconds digit groups
separated by colons, each group zero-padded to two digits. -/
def seconds_to_hh_mm_ss (s : Int) : String :=
  let pad2 := fun (n : Int) =>
    let d := toString n
    if n < 10 ∧ 0 ≤ n then "0" ++ d else d
  pad2 (s / 3600) ++ ":" ++ pad2 (s % 3600 / 60) ++ ":" ++ pad2 (s % 60)

/-- `Timer.__str__` (line 78).  The Python code calls `timestamp()` for
the current time; it is passed here as `now`. -/
def Timer.str (t : Timer) (now : Int) : String :=
  pctFormat "%s\t%s (every %s)"
    [seconds_to_hh_mm_ss (t.next_time - now), t.config.title,
     seconds_to_hh_mm_ss t.config.period_s]

/-- The `STATUS` reply built at line 150:
`'\n'.join([str(timer) for timer in self._timers])`. -/
def status_str (timers : List Timer) (now : Int) : String :=
  String.intercalate "\n" (timers.map (fun t => t.str now))

/-- The status line of one timer as the spec (§4.1) words it:
`"<remaining HH:MM:SS>\t<title> (every <period HH:MM:SS>)"`, to be compared
with the source-derived `Timer.str`. -/
def statusLineSpec (t : Timer) (now : Int) : String :=
  seconds_to_hh_mm_ss (t.next_time - now) ++ "\t" ++ t.config.title ++
    " (every " ++ seconds_to_hh_mm_ss t.config.period_s ++ ")"

/-- The status report as the spec (§6) words it: one line per timer, in
priority order, joined by newlines. -/
def statusReportSpec (timers : List Timer) (now : Int) : String :=
  String.intercalate "\n" (timers.map (fun t => statusLineSpec t now))

/-- A timestamp lies in the showing interval `[next_time, finish_time)`
of a timer. -/
def in_show_interval (t : Timer) (x : Int) : Prop :=
  t.next_time ≤ x ∧ x < t.get_next_time_finish

/-- The half-open showing intervals of two timers do not intersect
(the spec notion `[T.next_time, T.finish_time()) ∩ [H.next_time,
H.finish_time()) = ∅`). -/
def disjoint_show_intervals (a b : Timer) : Prop :=
  ∀ x : Int, ¬(in_show_interval a x ∧ in_show_interval b x)

/-- The duration-dominance invariant: every higher-priority (earlier)
timer has duration at least that of every lower-priority (later) timer. -/
def duration_dominant (timers : List Timer) : Prop :=
  List.Pairwise (fun a b => b.config.duration_s ≤ a.config.duration_s) timers

instance (t : Timer) (x : Int) : Decidable (in_show_interval t x) := by
  unfold in_show_interval
  infer_instance

instance (timers : List Timer) : Decidable (duration_dominant timers) := by
  unfold duration_dominant
  infer_instance

/-! ### Basic lemmas -/

theorem Timer.reschedule_config (t : Timer) : t.reschedule.config = t.config := rfl

theorem Timer.reschedule_next (t : Timer) :
    t.reschedule.next_time = t.next_time + t.config.period_s := rfl

theorem overlap_cond_iff (t h : Timer) :
    overlap_cond t h = true ↔
      h.next_time ≤ t.next_time + t.config.duration_s ∧
        t.next_time ≤ h.next_time + h.config.duration_s := by
  simp [overlap_cond, Timer.get_next_time_finish]

theorem overlap_cond_false_iff (t h : Timer) :
    overlap_cond t h = false ↔
      t.next_time + t.config.duration_s < h.next_time ∨
        h.next_time + h.config.duration_s < t.next_time := by
  rw [← Bool.not_eq_true, overlap_cond_iff]
  omega

/-! ### The inner while loop -/

theorem resolveAgainst_id (h t : Timer) (fuel : Nat)
    (hc : overlap_cond t h = false) : resolveAgainst h fuel t = some t := by
  cases fuel <;> simp [resolveAgainst, hc]

theorem resolveAgainst_config (h : Timer) :
    ∀ (fuel : Nat) (t r : Timer),
      resolveAgainst h fuel t = some r → r.config = t.config := by
  intro fuel
  induction fuel with
  | zero =>
    intro t r hr
    by_cases hc : overlap_cond t h = true
    · simp [resolveAgainst, hc] at hr
    · simp [resolveAgainst, hc] at hr
      subst hr
      rfl
  | succ n ih =>
    intro t r hr
    by_cases hc : overlap_cond t h = true
    · simp [resolveAgainst, hc] at hr
      exact (ih t.reschedule r hr).trans rfl
    · simp [resolveAgainst, hc] at hr
      subst hr
      rfl

theorem resolveAgainst_shift (h : Timer) :
    ∀ (fuel : Nat) (t r : Timer), resolveAgainst h fuel t = some r →
      ∃ k : Nat, r.next_time = t.next_time + (k : Int) * t.config.period_s := by
  intro fuel
  induction fuel with
  | zero =>
    intro t r hr
    by_cases hc : overlap_cond t h = true
    · simp [resolveAgainst, hc] at hr
    · simp [resolveAgainst, hc] at hr
      subst hr
      exact ⟨0, by simp⟩
  | succ n ih =>
    intro t r hr
    by_cases hc : overlap_cond t h = true
    · simp [resolveAgainst, hc] at hr
      obtain ⟨k, hk⟩ := ih t.reschedule r hr
      refine ⟨k + 1, ?_⟩
      rw [hk]
      show t.next_time + t.config.period_s + (k : Int) * t.config.period_s = _
      push_cast
      ring
    · simp [resolveAgainst, hc] at hr
      subst hr
      exact ⟨0, by simp⟩

theorem resolveAgainst_exit (h : Timer) :
    ∀ (fuel : Nat) (t r : Timer),
      resolveAgainst h fuel t = some r → overlap_cond r h = false := by
  intro fuel
  induction fuel with
  | zero =>
    intro t r hr
    by_cases hc : overlap_cond t h = true
    · simp [resolveAgainst, hc] at hr
    · simp [resolveAgainst, hc] at hr
      subst hr
      simpa using hc
  | succ n ih =>
    intro t r hr
    by_cases hc : overlap_cond t h = true
    · simp [resolveAgainst, hc] at hr
      exact ih t.reschedule r hr
    · simp [resolveAgainst, hc] at hr
      subst hr
      simpa using hc

theorem resolveAgainst_mono (h : Timer) :
    ∀ (f1 : Nat) (f2 : Nat) (t r : Timer), f1 ≤ f2 →
      resolveAgainst h f1 t = some r → resolveAgainst h f2 t = some r := by
  intro f1
  induction f1 with
  | zero =>
    intro f2 t r _ hr
    by_cases hc : overlap_cond t h = true
    · simp [resolveAgainst, hc] at hr
    · simp [resolveAgainst, hc] at hr
      subst hr
      exact resolveAgainst_id h t f2 (by simpa using hc)
  | succ n ih =>
    intro f2 t r hf hr
    by_cases hc : overlap_cond t h = true
    · simp [resolveAgainst, hc] at hr
      obtain ⟨m, rfl⟩ : ∃ m, f2 = m + 1 := ⟨f2 - 1, by omega⟩
      simp [resolveAgainst, hc]
      exact ih m t.reschedule r (by omega) hr
    · simp [resolveAgainst, hc] at hr
      subst hr
      exact resolveAgainst_id h t f2 (by simpa using hc)

theorem resolveAgainst_total (h : Timer) :
    ∀ (fuel : Nat) (t : Timer), 0 < t.config.period_s →
      (h.get_next_time_finish + 1 - t.next_time).toNat ≤ fuel →
      ∃ r, resolveAgainst h fuel t = some r := by
  intro fuel
  induction fuel with
  | zero =>
    intro t hp hf
    have hc : overlap_cond t h = false := by
      rw [overlap_cond_false_iff]
      simp [Timer.get_next_time_finish] at hf
      omega
    exact ⟨t, resolveAgainst_id h t 0 hc⟩
  | succ n ih =>
    intro t hp hf
    by_cases hc : overlap_cond t h = true
    · have hc2 := (overlap_cond_iff t h).mp hc
      have hstep : (h.get_next_time_finish + 1 - t.reschedule.next_time).toNat ≤ n := by
        simp [Timer.reschedule, Timer.get_next_time_finish] at hf hc2 ⊢
        omega
      obtain ⟨r, hrr⟩ := ih t.reschedule hp hstep
      exact ⟨r, by simp [resolveAgainst, hc, hrr]⟩
    · exact ⟨t, resolveAgainst_id h t (n + 1) (by simpa using hc)⟩

/-! ### The loop over the higher-priority timers -/

theorem resolveOne_id (fuel : Nat) (t : Timer) :
    ∀ hs : List Timer, (∀ h ∈ hs, overlap_cond t h = false) →
      resolveOne fuel t hs = some t := by
  intro hs
  induction hs with
  | nil => intro _; rfl
  | cons h rest ih =>
    intro hc
    have h1 : resolveAgainst h fuel t = some t :=
      resolveAgainst_id h t fuel (hc h (by simp))
    simp [resolveOne, h1]
    exact ih fun h2 hh => hc h2 (List.mem_cons_of_mem _ hh)

theorem resolveOne_spec (fuel : Nat) :
    ∀ (hs : List Timer) (t r : Timer), resolveOne fuel t hs = some r →
      r.config = t.config ∧
        ∃ k : Nat, r.next_time = t.next_time + (k : Int) * t.config.period_s := by
  intro hs
  induction hs with
  | nil =>
    intro t r hr
    simp [resolveOne] at hr
    subst hr
    exact ⟨rfl, 0, by simp⟩
  | cons h rest ih =>
    intro t r hr
    cases hra : resolveAgainst h fuel t with
    | none => simp [resolveOne, hra] at hr
    | some t2 =>
      simp [resolveOne, hra] at hr
      obtain ⟨hcfg, k2, hk2⟩ := ih t2 r hr
      have hcfg1 : t2.config = t.config := resolveAgainst_config h fuel t t2 hra
      obtain ⟨k1, hk1⟩ := resolveAgainst_shift h fuel t t2 hra
      refine ⟨hcfg.trans hcfg1, ⟨k2 + k1, ?_⟩⟩
      rw [hk2, hcfg1, hk1]
      push_cast
      ring

theorem resolveOne_mono (f1 f2 : Nat) (hf : f1 ≤ f2) :
    ∀ (hs : List Timer) (t r : Timer),
      resolveOne f1 t hs = some r → resolveOne f2 t hs = some r := by
  intro hs
  induction hs with
  | nil =>
    intro t r hr
    simpa [resolveOne] using hr
  | cons h rest ih =>
    intro t r hr
    cases hra : resolveAgainst h f1 t with
    | none => simp [resolveOne, hra] at hr
    | some t2 =>
      simp [resolveOne, hra] at hr
      simp [resolveOne, resolveAgainst_mono h f1 f2 t t2 hf hra]
      exact ih t2 r hr

theorem resolveOne_total :
    ∀ (hs : List Timer) (t : Timer), 0 < t.config.period_s →
      ∃ fuel r, resolveOne fuel t hs = some r := by
  intro hs
  induction hs with
  | nil => intro t _; exact ⟨0, t, rfl⟩
  | cons h rest ih =>
    intro t hp
    obtain ⟨r1, h1⟩ :=
      resolveAgainst_total h ((h.get_next_time_finish + 1 - t.next_time).toNat) t hp
        (le_refl _)
    have hp1 : 0 < r1.config.period_s := by
      rw [resolveAgainst_config h _ t r1 h1]
      exact hp
    obtain ⟨f2, r2, h2⟩ := ih r1 hp1
    refine ⟨max ((h.get_next_time_finish + 1 - t.next_time).toNat) f2, r2, ?_⟩
    have h1b := resolveAgainst_mono h ((h.get_next_time_finish + 1 - t.next_time).toNat)
      (max ((h.get_next_time_finish + 1 - t.next_time).toNat) f2) t r1 (le_max_left _ _) h1
    simp [resolveOne, h1b]
    exact resolveOne_mono f2 _ (le_max_right _ _) rest r1 r2 h2

theorem resolveOne_last (fuel : Nat) :
    ∀ (hs : List Timer) (t r h0 : Timer), resolveOne fuel t hs = some r →
      hs.getLast? = some h0 → overlap_cond r h0 = false := by
  intro hs
  induction hs with
  | nil => intro t r h0 _ hl; simp at hl
  | cons h rest ih =>
    intro t r h0 hr hl
    cases hra : resolveAgainst h fuel t with
    | none => simp [resolveOne, hra] at hr
    | some t2 =>
      simp [resolveOne, hra] at hr
      cases rest with
      | nil =>
        simp at hl
        subst hl
        simp [resolveOne] at hr
        subst hr
        exact resolveAgainst_exit h fuel t _ hra
      | cons h2 rest2 =>
        exact ih t2 r h0 hr (by rw [← hl, List.getLast?_cons_cons])

/-! ### The outer loop over the timer list -/

theorem resolveAux_mono (f1 f2 : Nat) (hf : f1 ≤ f2) :
    ∀ (todo done res : List Timer),
      resolveAux f1 done todo = some res → resolveAux f2 done todo = some res := by
  intro todo
  induction todo with
  | nil =>
    intro done res hr
    simpa [resolveAux] using hr
  | cons t rest ih =>
    intro done res hr
    cases hro : resolveOne f1 t done with
    | none => simp [resolveAux, hro] at hr
    | some t2 =>
      simp [resolveAux, hro] at hr
      simp [resolveAux, resolveOne_mono f1 f2 hf done t t2 hro]
      exact ih (done ++ [t2]) res hr

theorem resolveAux_spec (fuel : Nat) :
    ∀ (todo done res : List Timer), resolveAux fuel done todo = some res →
      ∃ res2, res = done ++ res2 ∧
        List.Forall₂ (fun t r => r.config = t.config ∧
          ∃ k : Nat, r.next_time = t.next_time + (k : Int) * t.config.period_s)
          todo res2 := by
  intro todo
  induction todo with
  | nil =>
    intro done res hr
    simp [resolveAux] at hr
    subst hr
    exact ⟨[], by simp, List.Forall₂.nil⟩
  | cons t rest ih =>
    intro done res hr
    cases hro : resolveOne fuel t done with
    | none => simp [resolveAux, hro] at hr
    | some t2 =>
      simp [resolveAux, hro] at hr
      obtain ⟨res2, hres, hfa⟩ := ih (done ++ [t2]) res hr
      refine ⟨t2 :: res2, by simp [hres], ?_⟩
      exact List.Forall₂.cons (resolveOne_spec fuel done t t2 hro) hfa

theorem resolveAux_chain (fuel : Nat) :
    ∀ (todo done res : List Timer),
      List.Chain' (fun hi lo => overlap_cond lo hi = false) done →
      resolveAux fuel done todo = some res →
      List.Chain' (fun hi lo => overlap_cond lo hi = false) res := by
  intro todo
  induction todo with
  | nil =>
    intro done res hch hr
    simp [resolveAux] at hr
    subst hr
    exact hch
  | cons t rest ih =>
    intro done res hch hr
    cases hro : resolveOne fuel t done with
    | none => simp [resolveAux, hro] at hr
    | some t2 =>
      simp [resolveAux, hro] at hr
      refine ih (done ++ [t2]) res ?_ hr
      rw [List.chain'_append]
      refine ⟨hch, List.chain'_singleton _, ?_⟩
      intro x hx y hy
      simp at hy
      subst hy
      exact resolveOne_last fuel done t t2 x hro (Option.mem_def.mp hx)

theorem resolveAux_id (fuel : Nat) :
    ∀ (todo done : List Timer),
      (∀ t ∈ todo, ∀ h ∈ done, overlap_cond t h = false) →
      List.Pairwise (fun hi lo => overlap_cond lo hi = false) todo →
      resolveAux fuel done todo = some (done ++ todo) := by
  intro todo
  induction todo with
  | nil => intro done _ _; simp [resolveAux]
  | cons t rest ih =>
    intro done hdt hp
    rw [List.pairwise_cons] at hp
    have h1 : resolveOne fuel t done = some t :=
      resolveOne_id fuel t done fun h hh => hdt t (by simp) h hh
    have hdt2 : ∀ t2 ∈ rest, ∀ h ∈ done ++ [t], overlap_cond t2 h = false := by
      intro t2 ht2 h hh
      rcases List.mem_append.mp hh with hcase | hcase
      · exact hdt t2 (by simp [ht2]) h hcase
      · simp at hcase
        subst hcase
        exact hp.1 t2 ht2
    simp [resolveAux, h1]
    rw [ih (done ++ [t]) hdt2 hp.2]
    simp

theorem resolveAux_total :
    ∀ (todo done : List Timer), (∀ t ∈ todo, 0 < t.config.period_s) →
      ∃ fuel res, resolveAux fuel done todo = some res := by
  intro todo
  induction todo with
  | nil => intro done _; exact ⟨0, done, rfl⟩
  | cons t rest ih =>
    intro done hp
    obtain ⟨f1, t2, h1⟩ := resolveOne_total done t (hp t (by simp))
    obtain ⟨f2, res2, h2⟩ :=
      ih (done ++ [t2]) fun x hx => hp x (by simp [hx])
    refine ⟨max f1 f2, res2, ?_⟩
    have h1b := resolveOne_mono f1 (max f1 f2) (le_max_left _ _) done t t2 h1
    simp [resolveAux, h1b]
    exact resolveAux_mono f2 (max f1 f2) (le_max_right _ _) rest (done ++ [t2]) res2 h2

/-! ### The due-timer scan -/

theorem scan_from_idle (now : Int) :
    ∀ (ts : List Timer) (i : Nat), (∀ t ∈ ts, now - t.next_time ≤ 0) →
      scan_from now i ts = ScanAction.idle := by
  intro ts
  induction ts with
  | nil => intro i _; rfl
  | cons t rest ih =>
    intro i hle
    have h0 : ¬ 0 < now - t.next_time := by
      have := hle t (by simp)
      omega
    simp [scan_from, h0]
    exact ih (i + 1) fun x hx => hle x (by simp [hx])

theorem scan_from_first (now : Int) :
    ∀ (pre : List Timer) (t : Timer) (post : List Timer) (i : Nat),
      (∀ p ∈ pre, now - p.next_time ≤ 0) →
      0 < now - t.next_time → now - t.next_time < SLEEP_THRESHOLD →
      scan_from now i (pre ++ t :: post) = ScanAction.activate (i + pre.length) := by
  intro pre
  induction pre with
  | nil =>
    intro t post i _ h1 h2
    simp [scan_from, h1, h2]
  | cons p ps ih =>
    intro t post i hpre h1 h2
    have h0 : ¬ 0 < now - p.next_time := by
      have := hpre p (by simp)
      omega
    simp [scan_from, h0]
    rw [ih t post (i + 1) (fun x hx => hpre x (by simp [hx])) h1 h2]
    congr 1
    omega

/-! ### Claims -/

/-- C4: a call to `reschedule()` changes `next_time` to exactly its previous
value plus `definition.period_s`; with `period_s > 0` this is a strict
increase, so `reschedule()` never moves `next_time` backward. -/
theorem reschedule_exact_strict_increase (t : Timer) (hp : 0 < t.config.period_s) :
    t.reschedule.next_time = t.next_time + t.config.period_s ∧
      t.next_time < t.reschedule.next_time := by
  refine ⟨rfl, ?_⟩
  simp [Timer.reschedule]
  omega

/-- Witness for C4 at a concrete timer (period 7, next_time 42). -/
theorem reschedule_exact_strict_increase_witness :
    (Timer.mk ⟨"w4", 7, 3⟩ 42).reschedule.next_time =
        (Timer.mk ⟨"w4", 7, 3⟩ 42).next_time +
          (Timer.mk ⟨"w4", 7, 3⟩ 42).config.period_s ∧
      (Timer.mk ⟨"w4", 7, 3⟩ 42).next_time <
        (Timer.mk ⟨"w4", 7, 3⟩ 42).reschedule.next_time :=
  reschedule_exact_strict_increase (Timer.mk ⟨"w4", 7, 3⟩ 42) (by decide)

/-- C9: `_reschedule_covered_timers` never modifies the highest-priority
timer: the timer at index 0 is checked against an empty set of
higher-priority timers, so the output list starts with it unchanged. -/
theorem resolver_head_unchanged (fuel : Nat) (t : Timer) (rest res : List Timer)
    (h : reschedule_covered_timers fuel (t :: rest) = some res) :
    ∃ res2, res = t :: res2 := by
  rw [reschedule_covered_timers] at h
  have h1 : resolveOne fuel t [] = some t := rfl
  simp [resolveAux, h1] at h
  obtain ⟨res2, hres, _⟩ := resolveAux_spec fuel rest [t] res h
  exact ⟨res2, by simpa using hres⟩

/-- Witness for C9 on a concrete two-timer list. -/
theorem resolver_head_unchanged_witness :
    ∃ res2, [Timer.mk ⟨"a9", 10, 2⟩ 0, Timer.mk ⟨"b9", 10, 1⟩ 11] =
      Timer.mk ⟨"a9", 10, 2⟩ 0 :: res2 :=
  resolver_head_unchanged 20 (Timer.mk ⟨"a9", 10, 2⟩ 0) [Timer.mk ⟨"b9", 10, 1⟩ 1]
    [Timer.mk ⟨"a9", 10, 2⟩ 0, Timer.mk ⟨"b9", 10, 1⟩ 11] (by decide)

/-- C10: immediately after `reset(now)` with a positive period,
`next_time = now + period_s`, so `now - next_time < 0` and the timer is not
due; a `_check_timers` scan at that same `now` after a full reset therefore
activates nothing. -/
theorem reset_makes_not_due (now : Int) (timers : List Timer)
    (hp : ∀ t ∈ timers, 0 < t.config.period_s) :
    (∀ t ∈ timers, (t.reset now).next_time = now + t.config.period_s ∧
        now - (t.reset now).next_time < 0) ∧
      check_action now (timers.map (fun t => t.reset now)) = ScanAction.idle := by
  constructor
  · intro t ht
    have := hp t ht
    refine ⟨rfl, ?_⟩
    simp [Timer.reset]
    omega
  · show scan_from now 0 _ = ScanAction.idle
    refine scan_from_idle now _ 0 ?_
    intro t2 ht2
    rw [List.mem_map] at ht2
    obtain ⟨t, ht, rfl⟩ := ht2
    have := hp t ht
    simp [Timer.reset]
    omega

/-- Witness for C10 on a concrete two-timer list at `now = 17`. -/
theorem reset_makes_not_due_witness :
    (∀ t ∈ [Timer.mk ⟨"wa", 5, 2⟩ 3, Timer.mk ⟨"wb", 9, 4⟩ 0],
        (t.reset 17).next_time = 17 + t.config.period_s ∧
          17 - (t.reset 17).next_time < 0) ∧
      check_action 17
        ([Timer.mk ⟨"wa", 5, 2⟩ 3, Timer.mk ⟨"wb", 9, 4⟩ 0].map
          (fun t => t.reset 17)) = ScanAction.idle :=
  reset_makes_not_due 17 [Timer.mk ⟨"wa", 5, 2⟩ 3, Timer.mk ⟨"wb", 9, 4⟩ 0]
    (by decide)

/-- C2 counterexample: at `now = 20` the first overdue timer is 15 units
late (`≥ SLEEP_THRESHOLD`), and `_check_timers` resets every timer but does
NOT run `_reschedule_covered_timers`: its result differs from
reset-then-resolve (after the reset, the intervals `[30, 35)` and `[32, 35)`
overlap, and only the resolver would push the second timer to 44). -/
theorem sleep_skips_resolver_cx :
    check_action 20 [Timer.mk ⟨"a2", 10, 5⟩ 5, Timer.mk ⟨"b2", 12, 3⟩ 5] =
        ScanAction.sleepReset ∧
      check_timers 50 20 [Timer.mk ⟨"a2", 10, 5⟩ 5, Timer.mk ⟨"b2", 12, 3⟩ 5] ≠
        reset_timers 50 20 [Timer.mk ⟨"a2", 10, 5⟩ 5, Timer.mk ⟨"b2", 12, 3⟩ 5] :=
  ⟨by decide, by decide⟩

/-- C2 amended: on sleep detection (`first overdue diff ≥ SLEEP_THRESHOLD`)
`_check_timers` resets every timer to `now` and activates nothing in that
scan; unlike the `RESET_TIMERS` message handler, it does not run
`_reschedule_covered_timers`. -/
theorem sleep_resets_without_resolver (fuel : Nat) (now : Int)
    (timers : List Timer) (h : check_action now timers = ScanAction.sleepReset) :
    check_timers fuel now timers = some (timers.map (fun t => t.reset now)) ∧
      ∀ i, check_action now timers ≠ ScanAction.activate i := by
  constructor
  · simp [check_timers, h]
  · intro i
    rw [h]
    simp

/-- Witness for the amended C2 on a concrete one-timer list. -/
theorem sleep_resets_without_resolver_witness :
    check_timers 7 20 [Timer.mk ⟨"w2", 10, 5⟩ 5] =
        some ([Timer.mk ⟨"w2", 10, 5⟩ 5].map (fun t => t.reset 20)) ∧
      ∀ i, check_action 20 [Timer.mk ⟨"w2", 10, 5⟩ 5] ≠ ScanAction.activate i :=
  sleep_resets_without_resolver 7 20 [Timer.mk ⟨"w2", 10, 5⟩ 5] (by decide)

/-- C3 counterexample: at `now = 20` the timer at index 1 is the first (and
only) timer with `0 < diff < SLEEP_THRESHOLD`, yet the scan stops at index 0
(`diff = 20 ≥ SLEEP_THRESHOLD`), resets everything and activates nothing. -/
theorem near_due_not_selected_cx :
    (0 < (20 : Int) - (Timer.mk ⟨"b3", 100, 3⟩ 15).next_time ∧
        (20 : Int) - (Timer.mk ⟨"b3", 100, 3⟩ 15).next_time < SLEEP_THRESHOLD) ∧
      ¬(0 < (20 : Int) - (Timer.mk ⟨"a3", 100, 5⟩ 0).next_time ∧
        (20 : Int) - (Timer.mk ⟨"a3", 100, 5⟩ 0).next_time < SLEEP_THRESHOLD) ∧
      check_action 20 [Timer.mk ⟨"a3", 100, 5⟩ 0, Timer.mk ⟨"b3", 100, 3⟩ 15] ≠
        ScanAction.activate 1 ∧
      check_action 20 [Timer.mk ⟨"a3", 100, 5⟩ 0, Timer.mk ⟨"b3", 100, 3⟩ 15] =
        ScanAction.sleepReset :=
  ⟨by decide, by decide, by decide, by decide⟩

/-- C3 amended: when the first timer in priority order with positive
`diff = now - next_time` has `diff < SLEEP_THRESHOLD`, the scan selects
exactly that timer (index = number of earlier, not-yet-due timers) and
checks no further timers; the effect is to reschedule it and run
`_reschedule_covered_timers`. -/
theorem near_due_first_overdue_activates (fuel : Nat) (now : Int)
    (pre post : List Timer) (t : Timer)
    (hpre : ∀ p ∈ pre, now - p.next_time ≤ 0)
    (h1 : 0 < now - t.next_time) (h2 : now - t.next_time < SLEEP_THRESHOLD) :
    check_action now (pre ++ t :: post) = ScanAction.activate pre.length ∧
      check_timers fuel now (pre ++ t :: post) =
        reschedule_covered_timers fuel
          (modifyIdx (pre ++ t :: post) pre.length Timer.reschedule) := by
  have ha : check_action now (pre ++ t :: post) = ScanAction.activate pre.length := by
    have := scan_from_first now pre t post 0 hpre h1 h2
    simpa [check_action] using this
  exact ⟨ha, by simp [check_timers, ha]⟩

/-- Witness for the amended C3: one not-yet-due timer ahead of a timer that
is 4 units overdue. -/
theorem near_due_first_overdue_activates_witness :
    check_action 20 ([Timer.mk ⟨"p3", 9, 1⟩ 100] ++ Timer.mk ⟨"q3", 9, 1⟩ 16 :: []) =
        ScanAction.activate 1 ∧
      check_timers 5 20 ([Timer.mk ⟨"p3", 9, 1⟩ 100] ++ Timer.mk ⟨"q3", 9, 1⟩ 16 :: []) =
        reschedule_covered_timers 5
          (modifyIdx ([Timer.mk ⟨"p3", 9, 1⟩ 100] ++ Timer.mk ⟨"q3", 9, 1⟩ 16 :: []) 1
            Timer.reschedule) :=
  near_due_first_overdue_activates 5 20 [Timer.mk ⟨"p3", 9, 1⟩ 100] []
    (Timer.mk ⟨"q3", 9, 1⟩ 16) (by decide) (by decide) (by decide)

/-- Strengthening of the resolver shift relation: with positive periods the
shift `k * period_s` is nonnegative, so `next_time` never decreases. -/
theorem forall2_shift_mono :
    ∀ (ts rs : List Timer),
      List.Forall₂ (fun t r => r.config = t.config ∧
        ∃ k : Nat, r.next_time = t.next_time + (k : Int) * t.config.period_s) ts rs →
      (∀ t ∈ ts, 0 < t.config.period_s) →
      List.Forall₂ (fun t r => r.config = t.config ∧ t.next_time ≤ r.next_time ∧
        ∃ k : Nat, r.next_time = t.next_time + (k : Int) * t.config.period_s)
        ts rs := by
  intro ts
  induction ts with
  | nil =>
    intro rs hfa _
    cases hfa
    exact List.Forall₂.nil
  | cons t ts2 ih =>
    intro rs hfa hp
    cases hfa with
    | cons hrel hrest =>
      obtain ⟨hcfg, k, hk⟩ := hrel
      have hpt := hp t (by simp)
      have hnn : (0 : Int) ≤ (k : Int) * t.config.period_s :=
        mul_nonneg (Int.natCast_nonneg k) (le_of_lt hpt)
      refine List.Forall₂.cons ⟨hcfg, ?_, k, hk⟩
        (ih _ hrest fun x hx => hp x (by simp [hx]))
      rw [hk]
      linarith

/-- C8: `_reschedule_covered_timers` only moves timers later: when it
returns, every output timer keeps its definition unchanged and its
`next_time` equals the input value plus `k * period_s` for some natural
`k ≥ 0`; with positive periods no `next_time` ever decreases. -/
theorem resolver_only_delays (fuel : Nat) (timers res : List Timer)
    (hp : ∀ t ∈ timers, 0 < t.config.period_s)
    (h : reschedule_covered_timers fuel timers = some res) :
    List.Forall₂ (fun t r => r.config = t.config ∧ t.next_time ≤ r.next_time ∧
      ∃ k : Nat, r.next_time = t.next_time + (k : Int) * t.config.period_s)
      timers res := by
  rw [reschedule_covered_timers] at h
  obtain ⟨res2, hres, hfa⟩ := resolveAux_spec fuel timers [] res h
  simp at hres
  subst hres
  exact forall2_shift_mono timers res hfa hp

/-- Witness for C8 on a concrete two-timer list (second timer pushed from
1 to 11 by one period). -/
theorem resolver_only_delays_witness :
    List.Forall₂ (fun t r => r.config = t.config ∧ t.next_time ≤ r.next_time ∧
        ∃ k : Nat, r.next_time = t.next_time + (k : Int) * t.config.period_s)
      [Timer.mk ⟨"a8", 10, 2⟩ 0, Timer.mk ⟨"b8", 10, 1⟩ 1]
      [Timer.mk ⟨"a8", 10, 2⟩ 0, Timer.mk ⟨"b8", 10, 1⟩ 11] :=
  resolver_only_delays 20 _ _ (by decide) (by decide)

/-- C6: with every period positive, `_reschedule_covered_timers`
terminates: some finite fuel suffices for every inner while loop (each
`reschedule()` strictly increases `next_time`, which eventually exceeds the
fixed higher-priority finish time) and the single forward pass returns a
result. -/
theorem resolver_terminates (timers : List Timer)
    (hp : ∀ t ∈ timers, 0 < t.config.period_s) :
    ∃ fuel res, reschedule_covered_timers fuel timers = some res :=
  resolveAux_total timers [] hp

/-- Witness for C6 on a concrete list with two initially colliding timers. -/
theorem resolver_terminates_witness :
    ∃ fuel res,
      reschedule_covered_timers fuel
        [Timer.mk ⟨"w6", 3, 2⟩ 0, Timer.mk ⟨"v6", 3, 2⟩ 0] = some res :=
  resolver_terminates [Timer.mk ⟨"w6", 3, 2⟩ 0, Timer.mk ⟨"v6", 3, 2⟩ 0]
    (by decide)

/-- C5 counterexample: the intervals `[0, 5)` and `[5, 7)` (periods 10) do
not intersect, yet the resolver moves the second timer from 5 to 15: the
while condition (`finish ≥ next` and `next ≤ finish`) also fires on merely
touching intervals, so intersection-freedom does not make the resolver the
identity. -/
theorem resolver_moves_touching_cx :
    (∀ x : Int, ¬(in_show_interval (Timer.mk ⟨"b5", 10, 2⟩ 5) x ∧
        in_show_interval (Timer.mk ⟨"a5", 10, 5⟩ 0) x)) ∧
      reschedule_covered_timers 50
          [Timer.mk ⟨"a5", 10, 5⟩ 0, Timer.mk ⟨"b5", 10, 2⟩ 5] ≠
        some [Timer.mk ⟨"a5", 10, 5⟩ 0, Timer.mk ⟨"b5", 10, 2⟩ 5] := by
  constructor
  · intro x hx
    dsimp only [in_show_interval, Timer.get_next_time_finish] at hx
    omega
  · decide

/-- C5 amended: the resolver changes nothing on a list in which no pair
(higher, lower) satisfies the while condition `lower.finish ≥ higher.next ∧
lower.next ≤ higher.finish` (overlap-or-touch); disjointness of the
half-open intervals alone does not suffice, since touching intervals are
still rescheduled.  In particular running the resolver twice from such a
state equals running it once. -/
theorem resolver_id_on_resolved (fuel : Nat) (timers : List Timer)
    (h : List.Pairwise (fun hi lo => overlap_cond lo hi = false) timers) :
    reschedule_covered_timers fuel timers = some timers := by
  rw [reschedule_covered_timers]
  have := resolveAux_id fuel timers [] (by simp) h
  simpa using this

/-- Witness for the amended C5 on a concrete strictly separated list. -/
theorem resolver_id_on_resolved_witness :
    reschedule_covered_timers 30
        [Timer.mk ⟨"x5", 10, 5⟩ 0, Timer.mk ⟨"y5", 10, 2⟩ 10] =
      some [Timer.mk ⟨"x5", 10, 5⟩ 0, Timer.mk ⟨"y5", 10, 2⟩ 10] :=
  resolver_id_on_resolved 30
    [Timer.mk ⟨"x5", 10, 5⟩ 0, Timer.mk ⟨"y5", 10, 2⟩ 10] (by decide)

/-- C1 counterexample: all periods and durations are positive and
duration-dominance holds (5 ≥ 5 ≥ 2), yet after the resolver runs the
lowest-priority timer — pushed past the index-1 timer `[0, 5)` in steps of
its period 100 — lands exactly on the top-priority timer: the result holds
`[100, 105)` at index 0 and `[100, 102)` at index 2, and timestamp 100 lies
in both.  The pass never rechecks a higher-priority timer it already
passed. -/
theorem resolver_overlap_remains_cx :
    (∀ t ∈ [Timer.mk ⟨"a1", 1000, 5⟩ 100, Timer.mk ⟨"b1", 1000, 5⟩ 0,
        Timer.mk ⟨"c1", 100, 2⟩ 0], 0 < t.config.period_s) ∧
      (∀ t ∈ [Timer.mk ⟨"a1", 1000, 5⟩ 100, Timer.mk ⟨"b1", 1000, 5⟩ 0,
        Timer.mk ⟨"c1", 100, 2⟩ 0], 0 < t.config.duration_s) ∧
      duration_dominant [Timer.mk ⟨"a1", 1000, 5⟩ 100, Timer.mk ⟨"b1", 1000, 5⟩ 0,
        Timer.mk ⟨"c1", 100, 2⟩ 0] ∧
      reschedule_covered_timers 50
          [Timer.mk ⟨"a1", 1000, 5⟩ 100, Timer.mk ⟨"b1", 1000, 5⟩ 0,
            Timer.mk ⟨"c1", 100, 2⟩ 0] =
        some [Timer.mk ⟨"a1", 1000, 5⟩ 100, Timer.mk ⟨"b1", 1000, 5⟩ 0,
          Timer.mk ⟨"c1", 100, 2⟩ 100] ∧
      in_show_interval (Timer.mk ⟨"c1", 100, 2⟩ 100) 100 ∧
      in_show_interval (Timer.mk ⟨"a1", 1000, 5⟩ 100) 100 ∧
      ¬ disjoint_show_intervals (Timer.mk ⟨"c1", 100, 2⟩ 100)
          (Timer.mk ⟨"a1", 1000, 5⟩ 100) := by
  refine ⟨by decide, by decide, by decide, by decide, by decide, by decide, ?_⟩
  intro hd
  exact hd 100 ⟨by decide, by decide⟩

/-- C1 amended: after `_reschedule_covered_timers` runs on a list with
positive periods and durations satisfying duration-dominance, disjointness
of `[next_time, finish_time())` intervals is guaranteed between each timer
and its immediate higher-priority neighbour (consecutive indices) — the
last higher-priority timer it was checked against; non-adjacent pairs can
still overlap. -/
theorem resolver_adjacent_disjoint (fuel : Nat) (timers res : List Timer)
    (_hp : ∀ t ∈ timers, 0 < t.config.period_s)
    (_hd : ∀ t ∈ timers, 0 < t.config.duration_s)
    (_hdom : duration_dominant timers)
    (h : reschedule_covered_timers fuel timers = some res) :
    List.Chain' (fun hi lo => disjoint_show_intervals lo hi) res := by
  rw [reschedule_covered_timers] at h
  have hch := resolveAux_chain fuel timers [] res (by simp) h
  refine hch.imp ?_
  intro a b hab
  rw [overlap_cond_false_iff] at hab
  intro x hx
  dsimp only [in_show_interval, Timer.get_next_time_finish] at hx
  omega

/-- Witness for the amended C1 on a concrete two-timer list (second timer
pushed from `[1, 2)` to `[11, 12)`, disjoint from `[0, 2)`). -/
theorem resolver_adjacent_disjoint_witness :
    List.Chain' (fun hi lo => disjoint_show_intervals lo hi)
      [Timer.mk ⟨"u1", 10, 2⟩ 0, Timer.mk ⟨"v1", 10, 1⟩ 11] :=
  resolver_adjacent_disjoint 20
    [Timer.mk ⟨"u1", 10, 2⟩ 0, Timer.mk ⟨"v1", 10, 1⟩ 1]
    [Timer.mk ⟨"u1", 10, 2⟩ 0, Timer.mk ⟨"v1", 10, 1⟩ 11]
    (by decide) (by decide) (by decide) (by decide)

/-- The `%s`-substitution of `Timer.__str__` produces exactly the
concatenation the spec describes. -/
theorem timer_str_spec (t : Timer) (now : Int) :
    t.str now = statusLineSpec t now := by
  show pctFormatAux
    ['%', 's', '\t', '%', 's', ' ', '(', 'e', 'v', 'e', 'r', 'y', ' ', '%', 's', ')']
    _ = _
  simp [pctFormatAux, statusLineSpec]
  apply String.ext
  simp [String.singleton]

/-- C7: each status line is exactly the remaining time (`next_time` minus
the current timestamp) in `HH:MM:SS`, a tab, the title, then
`" (every <period in HH:MM:SS>)"`; the `STATUS` reply is one such line per
timer, in priority order, joined by newlines.  (`seconds_to_hh_mm_ss` is
modelled from the spec; `util.py` is not under `src/`.) -/
theorem status_report_format (timers : List Timer) (now : Int) :
    status_str timers now = statusReportSpec timers now := by
  simp [status_str, statusReportSpec, timer_str_spec]

end BlinkTimer
